import Mathlib

/-!
Verification of the Mitsuba 3 phase-function plugins `hg.cpp`
(`HGPhaseFunction`) and `blendphase` (`BlendPhaseFunction`) against their
specification.  The C++ floating-point arithmetic is modelled over the real
numbers; the vectorized Dr.Jit masks are modelled by their scalar semantics
(`dr::any_or<true>` on a scalar mask executes exactly the branch whose mask
holds, and the two masks `sample1 > weight` / `sample1 <= weight` are
complementary).
-/

noncomputable section

/-- 3-D vectors (`Vector3f`). -/
abbrev Vec3 : Type := ℝ × ℝ × ℝ

/-- `dr::dot` on 3-D vectors. -/
def dot3 (a b : Vec3) : ℝ :=
  a.1 * b.1 + a.2.1 * b.2.1 + a.2.2 * b.2.2

/-- Modelled from the spec: `MediumInteraction3f` is declared outside these
sources (`mitsuba/render/interaction.h`).  Per the spec it supplies the
incoming direction `wi` and a frame-transform `to_world` mapping local
coordinates "into the frame of the incoming direction at the scattering
point": an orthonormal frame `(fs, ft, wi)` whose third axis is `wi`. -/
structure MediumInteraction where
  wi : Vec3
  fs : Vec3
  ft : Vec3

/-- Modelled from the spec: `to_world(localDirection) -> worldDirection`,
the linear map sending local coordinates `(x, y, z)` to
`x·fs + y·ft + z·wi`. -/
def MediumInteraction.toWorld (mi : MediumInteraction) (v : Vec3) : Vec3 :=
  (v.1 * mi.fs.1 + v.2.1 * mi.ft.1 + v.2.2 * mi.wi.1,
   v.1 * mi.fs.2.1 + v.2.1 * mi.ft.2.1 + v.2.2 * mi.wi.2.1,
   v.1 * mi.fs.2.2 + v.2.1 * mi.ft.2.2 + v.2.2 * mi.wi.2.2)

/-- `PhaseFunctionContext`: only its `component` field is read by the two
plugins.  The sentinel `(uint32_t) -1` (unrestricted mode) is `none`; a
concrete component index `k` is `some k`. -/
structure PhaseCtx where
  component : Option ℕ

/-- The type of a phase function's `eval` method. -/
abbrev EvalFn : Type := PhaseCtx → MediumInteraction → Vec3 → ℝ

/-- The type of a phase function's `sample` method: context, interaction,
1-D sample, 2-D sample; returns (direction, density). -/
abbrev SampleFn : Type := PhaseCtx → MediumInteraction → ℝ → ℝ × ℝ → Vec3 × ℝ

/-- `dr::Epsilon<float>` = 2⁻²⁴, the tolerance below which `hg.cpp` switches
to the isotropic inversion branch. -/
def drEpsilon : ℝ := (2 : ℝ) ^ (-24 : ℤ)

/-- `dr::InvFourPi` = 1/(4π). -/
def invFourPi : ℝ := 1 / (4 * Real.pi)

/-- `HGPhaseFunction::eval_hg`:
`temp = 1 + g*g + 2*g*cos_theta; InvFourPi * (1 - g*g) / (temp * sqrt(temp))`. -/
def eval_hg (g cosTheta : ℝ) : ℝ :=
  let temp : ℝ := 1 + g * g + 2 * g * cosTheta
  invFourPi * (1 - g * g) / (temp * Real.sqrt temp)

/-- `HGPhaseFunction::eval`: `eval_hg(dot(wo, mi.wi))`; the context is an
unnamed (ignored) parameter in the C++ code. -/
def hg_eval (g : ℝ) (_ctx : PhaseCtx) (mi : MediumInteraction) (wo : Vec3) : ℝ :=
  eval_hg g (dot3 wo mi.wi)

/-- The deflection cosine computed by `HGPhaseFunction::sample` from the
first 2-D sample coordinate: isotropic fallback when `|g|` is below
`dr::Epsilon`, otherwise the standard Henyey-Greenstein inversion. -/
def hg_cos_theta (g u : ℝ) : ℝ :=
  if |g| < drEpsilon then 1 - 2 * u
  else
    let sqrTerm : ℝ := (1 - g * g) / (1 - g + 2 * g * u)
    (1 + g * g - sqrTerm * sqrTerm) / (2 * g)

/-- `HGPhaseFunction::sample`: the context and the 1-D sample are unnamed
(ignored) parameters in the C++ code; both direction angles come from the
2-D sample.  `dr::safe_sqrt x` is `sqrt (max x 0)`, and `dr::sincos` of the
azimuth gives the pair (sin, cos).  Returns
`(to_world (sinθ·cosφ, sinθ·sinφ, -cosθ), eval_hg (-cosθ))`. -/
def hg_sample (g : ℝ) (_ctx : PhaseCtx) (mi : MediumInteraction)
    (_sample1 : ℝ) (sample2 : ℝ × ℝ) : Vec3 × ℝ :=
  let cosTheta : ℝ := hg_cos_theta g sample2.1
  let sinTheta : ℝ := Real.sqrt (max (1 - cosTheta * cosTheta) 0)
  (mi.toWorld (sinTheta * Real.cos (2 * Real.pi * sample2.2),
               sinTheta * Real.sin (2 * Real.pi * sample2.2),
               -cosTheta),
   eval_hg g (-cosTheta))

/-- `HGPhaseFunction::HGPhaseFunction`: `Log(Error, ...)` aborts construction
when `g >= 1 || g <= -1`; `none` models that fatal failure, `some g` a
usable kernel. -/
def mkHG (g : ℝ) : Option ℝ :=
  if g ≥ 1 ∨ g ≤ -1 then none else some g

/-- `BlendPhaseFunction::eval_weight`:
`dr::clamp(m_weight->eval_1(mi, active), 0, 1)`.  The weight volume is
modelled as a function of the interaction. -/
def eval_weight (weightField : MediumInteraction → ℝ)
    (mi : MediumInteraction) : ℝ :=
  min (max (weightField mi) 0) 1

/-- `BlendPhaseFunction::eval`, parametrized by the two children's `eval`
methods and child 0's component count `c0`.  Restricted mode
(`ctx.component = some k`): route to child 0 when `k < c0` with the context
unchanged and factor `1 - weight`, else to child 1 with the component
rebased by `c0` and factor `weight`.  Unrestricted mode: the convex
combination `eval0 * (1 - weight) + eval1 * weight`. -/
def blend_eval (weightField : MediumInteraction → ℝ) (eval0 eval1 : EvalFn)
    (c0 : ℕ) (ctx : PhaseCtx) (mi : MediumInteraction) (wo : Vec3) : ℝ :=
  let weight := eval_weight weightField mi
  match ctx.component with
  | some k =>
      if k < c0 then (1 - weight) * eval0 ctx mi wo
      else weight * eval1 ⟨some (k - c0)⟩ mi wo
  | none =>
      eval0 ctx mi wo * (1 - weight) + eval1 ctx mi wo * weight

/-- `BlendPhaseFunction::sample`, parametrized by the two children's
`sample` methods and child 0's component count `c0`.  Restricted mode
mirrors `blend_eval`: forward with unchanged sample coordinates and scale
only the returned density (`pdf *= weight`).  Unrestricted mode: the scalar
semantics of the masks `m0 = u1 > weight`, `m1 = u1 <= weight` — route to
child 0 with the renormalized uniform `(u1 - weight)/(1 - weight)`, or to
child 1 with `u1 / weight`, returning the child's pair unchanged. -/
def blend_sample (weightField : MediumInteraction → ℝ) (smp0 smp1 : SampleFn)
    (c0 : ℕ) (ctx : PhaseCtx) (mi : MediumInteraction) (u1 : ℝ)
    (sample2 : ℝ × ℝ) : Vec3 × ℝ :=
  let weight := eval_weight weightField mi
  match ctx.component with
  | some k =>
      if k < c0 then
        let r := smp0 ctx mi u1 sample2
        (r.1, r.2 * (1 - weight))
      else
        let r := smp1 ⟨some (k - c0)⟩ mi u1 sample2
        (r.1, r.2 * weight)
  | none =>
      if u1 > weight then
        smp0 ctx mi ((u1 - weight) / (1 - weight)) sample2
      else
        smp1 ctx mi (u1 / weight) sample2

/-- `BlendPhaseFunction::BlendPhaseFunction`: the constructor loop stores
the supplied child phase functions, throwing on a third; afterwards
`phase_index != 2` throws, so any count other than exactly two fails.
Modelled from the spec for the weight lookup: `props.volume("weight")` is
declared outside these sources and, per the spec, an absent weight source is
a fatal construction failure.  `none` models a failed (unusable)
construction. -/
def mkBlend {α W : Type} (phases : List α) (weight : Option W) :
    Option ((α × α) × W) :=
  match phases, weight with
  | [p0, p1], some w => some ((p0, p1), w)
  | _, _ => none

/-- The phase functions this repository provides: the Henyey-Greenstein
leaf (`hg.cpp`) and the blend composite.  Used to state the whole-family
component-sum invariant. -/
inductive PF where
  | hg (g : ℝ)
  | blend (weightField : MediumInteraction → ℝ) (p0 p1 : PF)

/-- `component_count`: the HG constructor pushes exactly one entry onto
`m_components`; the blend constructor concatenates the children's
component lists. -/
def PF.componentCount : PF → ℕ
  | .hg _ => 1
  | .blend _ p0 p1 => p0.componentCount + p1.componentCount

/-- The `eval` method of each phase function in the family. -/
def PF.eval : PF → EvalFn
  | .hg g => hg_eval g
  | .blend wf p0 p1 => blend_eval wf p0.eval p1.eval p0.componentCount

/-- A concrete interaction whose frame is the standard basis with `wi`
along the z-axis. -/
def miX : MediumInteraction := ⟨(0, 0, 1), (1, 0, 0), (0, 1, 0)⟩

/-- A concrete child `sample` method returning a recognizable pair. -/
def smpA : SampleFn := fun _ _ u _ => ((u, 0, 0), 2)

/-- A second concrete child `sample` method, distinguishable from `smpA`. -/
def smpB : SampleFn := fun _ _ u _ => ((u, 1, 1), 3)

/-- A constant weight field of value 1/2. -/
def wHalf : MediumInteraction → ℝ := fun _ => 1 / 2

/-- A constant weight field of value 0. -/
def wZero : MediumInteraction → ℝ := fun _ => 0

/-- A constant weight field of value 1. -/
def wOne : MediumInteraction → ℝ := fun _ => 1

/-- A concrete child `eval` method of constant density 5. -/
def evA : EvalFn := fun _ _ _ => 5

/-- A concrete child `eval` method of constant density 7. -/
def evB : EvalFn := fun _ _ _ => 7

/-- The constant weight field 1/2 clamps to 1/2. -/
theorem eval_weight_wHalf (mi : MediumInteraction) :
    eval_weight wHalf mi = 1 / 2 := by
  simp only [eval_weight, wHalf, max_def, min_def]
  norm_num

/-- The constant weight field 0 clamps to 0. -/
theorem eval_weight_wZero (mi : MediumInteraction) :
    eval_weight wZero mi = 0 := by
  simp only [eval_weight, wZero, max_def, min_def]
  norm_num

/-- The constant weight field 1 clamps to 1. -/
theorem eval_weight_wOne (mi : MediumInteraction) :
    eval_weight wOne mi = 1 := by
  simp only [eval_weight, wOne, max_def, min_def]
  norm_num

/-- Claim C1: in unrestricted mode, `sample` routes `u1 > w` to child 0 with
the renormalized uniform `(u1 - w)/(1 - w)` and `u1 ≤ w` to child 1 with
`u1 / w`, returning the chosen child's (direction, density) pair unchanged —
the density is not multiplied by `w` or `1 - w`. -/
theorem blend_sample_unrestricted_routing
    (weightField : MediumInteraction → ℝ) (smp0 smp1 : SampleFn) (c0 : ℕ)
    (mi : MediumInteraction) (u1 : ℝ) (sample2 : ℝ × ℝ)
    (hu0 : 0 ≤ u1) (hu1 : u1 < 1) :
    (u1 > eval_weight weightField mi →
      blend_sample weightField smp0 smp1 c0 ⟨none⟩ mi u1 sample2 =
        smp0 ⟨none⟩ mi
          ((u1 - eval_weight weightField mi) /
            (1 - eval_weight weightField mi)) sample2) ∧
    (u1 ≤ eval_weight weightField mi →
      blend_sample weightField smp0 smp1 c0 ⟨none⟩ mi u1 sample2 =
        smp1 ⟨none⟩ mi (u1 / eval_weight weightField mi) sample2) := by
  constructor
  · intro h
    simp only [blend_sample, if_pos h]
  · intro h
    simp only [blend_sample, if_neg (not_lt.mpr h)]

/-- Witness for C1: the routing theorem applied at the concrete weight 1/2
with `u1 = 3/4` (child 0) and `u1 = 1/4` (child 1). -/
theorem blend_sample_unrestricted_routing_witness :
    (blend_sample wHalf smpA smpB 1 ⟨none⟩ miX (3 / 4) (0, 0) =
      smpA ⟨none⟩ miX
        ((3 / 4 - eval_weight wHalf miX) / (1 - eval_weight wHalf miX))
        (0, 0)) ∧
    (blend_sample wHalf smpA smpB 1 ⟨none⟩ miX (1 / 4) (0, 0) =
      smpB ⟨none⟩ miX (1 / 4 / eval_weight wHalf miX) (0, 0)) :=
  ⟨(blend_sample_unrestricted_routing wHalf smpA smpB 1 miX (3 / 4) (0, 0)
      (by norm_num) (by norm_num)).1
      (by rw [eval_weight_wHalf]; norm_num),
   (blend_sample_unrestricted_routing wHalf smpA smpB 1 miX (1 / 4) (0, 0)
      (by norm_num) (by norm_num)).2
      (by rw [eval_weight_wHalf]; norm_num)⟩

/-- Claim C3: in restricted mode with component `k`, both `eval` and
`sample` forward to child 0 (context unchanged, factor `1 - w`) when
`k < c0`, else to child 1 (component rebased by `c0`, factor `w`); `sample`
keeps the sample coordinates and the returned direction unmodified and
scales only the density. -/
theorem blend_restricted_forwarding
    (weightField : MediumInteraction → ℝ) (e0 e1 : EvalFn)
    (smp0 smp1 : SampleFn) (c0 c1 k : ℕ) (mi : MediumInteraction)
    (wo : Vec3) (u1 : ℝ) (sample2 : ℝ × ℝ) (hk : k < c0 + c1) :
    (k < c0 →
      blend_eval weightField e0 e1 c0 ⟨some k⟩ mi wo =
        (1 - eval_weight weightField mi) * e0 ⟨some k⟩ mi wo ∧
      blend_sample weightField smp0 smp1 c0 ⟨some k⟩ mi u1 sample2 =
        ((smp0 ⟨some k⟩ mi u1 sample2).1,
          (smp0 ⟨some k⟩ mi u1 sample2).2 *
            (1 - eval_weight weightField mi))) ∧
    (c0 ≤ k →
      blend_eval weightField e0 e1 c0 ⟨some k⟩ mi wo =
        eval_weight weightField mi * e1 ⟨some (k - c0)⟩ mi wo ∧
      blend_sample weightField smp0 smp1 c0 ⟨some k⟩ mi u1 sample2 =
        ((smp1 ⟨some (k - c0)⟩ mi u1 sample2).1,
          (smp1 ⟨some (k - c0)⟩ mi u1 sample2).2 *
            eval_weight weightField mi)) := by
  constructor
  · intro h
    exact ⟨by simp only [blend_eval, if_pos h],
           by simp only [blend_sample, if_pos h]⟩
  · intro h
    have h2 : ¬ k < c0 := not_lt.mpr h
    exact ⟨by simp only [blend_eval, if_neg h2],
           by simp only [blend_sample, if_neg h2]⟩

/-- Witness for C3: the forwarding theorem applied at weight 1/2, one
component per child, for `k = 0` (child 0) and `k = 1` (child 1). -/
theorem blend_restricted_forwarding_witness :
    (blend_eval wHalf evA evB 1 ⟨some 0⟩ miX (0, 0, 1) =
        (1 - eval_weight wHalf miX) * evA ⟨some 0⟩ miX (0, 0, 1) ∧
      blend_sample wHalf smpA smpB 1 ⟨some 0⟩ miX (1 / 4) (0, 0) =
        ((smpA ⟨some 0⟩ miX (1 / 4) (0, 0)).1,
          (smpA ⟨some 0⟩ miX (1 / 4) (0, 0)).2 *
            (1 - eval_weight wHalf miX))) ∧
    (blend_eval wHalf evA evB 1 ⟨some 1⟩ miX (0, 0, 1) =
        eval_weight wHalf miX * evB ⟨some (1 - 1)⟩ miX (0, 0, 1) ∧
      blend_sample wHalf smpA smpB 1 ⟨some 1⟩ miX (1 / 4) (0, 0) =
        ((smpB ⟨some (1 - 1)⟩ miX (1 / 4) (0, 0)).1,
          (smpB ⟨some (1 - 1)⟩ miX (1 / 4) (0, 0)).2 *
            eval_weight wHalf miX)) :=
  ⟨(blend_restricted_forwarding wHalf evA evB smpA smpB 1 1 0 miX (0, 0, 1)
      (1 / 4) (0, 0) (by norm_num)).1 (by norm_num),
   (blend_restricted_forwarding wHalf evA evB smpA smpB 1 1 1 miX (0, 0, 1)
      (1 / 4) (0, 0) (by norm_num)).2 (by norm_num)⟩

/-- Claim C2: in unrestricted mode the mixture's `eval` returns
`(1-w)·children[0].eval(wo) + w·children[1].eval(wo)` where `w` is the
weight field's value at the interaction clamped into [0,1]. -/
theorem blend_eval_unrestricted_mixture
    (weightField : MediumInteraction → ℝ) (e0 e1 : EvalFn) (c0 : ℕ)
    (mi : MediumInteraction) (wo : Vec3) :
    blend_eval weightField e0 e1 c0 ⟨none⟩ mi wo =
      (1 - min (max (weightField mi) 0) 1) * e0 ⟨none⟩ mi wo +
        min (max (weightField mi) 0) 1 * e1 ⟨none⟩ mi wo := by
  simp only [blend_eval, eval_weight]
  ring

/-- Claim C4: for every phase function the repository can build, every
interaction and every outgoing direction, summing restricted-mode `eval`
over all component indices reproduces the unrestricted `eval` exactly. -/
theorem blend_component_sum_eval (p : PF) (mi : MediumInteraction)
    (wo : Vec3) :
    (Finset.range p.componentCount).sum
        (fun k => p.eval ⟨some k⟩ mi wo) =
      p.eval ⟨none⟩ mi wo := by
  induction p with
  | hg g =>
      simp [PF.eval, PF.componentCount, hg_eval]
  | blend wf p0 p1 ih0 ih1 =>
      simp only [PF.eval, PF.componentCount]
      rw [Finset.sum_range_add]
      have h0 : ∀ k ∈ Finset.range p0.componentCount,
          blend_eval wf p0.eval p1.eval p0.componentCount ⟨some k⟩ mi wo =
            (1 - eval_weight wf mi) * p0.eval ⟨some k⟩ mi wo := by
        intro k hk
        simp only [blend_eval, if_pos (Finset.mem_range.mp hk)]
      have h1 : ∀ k ∈ Finset.range p1.componentCount,
          blend_eval wf p0.eval p1.eval p0.componentCount
              ⟨some (p0.componentCount + k)⟩ mi wo =
            eval_weight wf mi * p1.eval ⟨some k⟩ mi wo := by
        intro k hk
        simp only [blend_eval,
          if_neg (Nat.not_lt.mpr (Nat.le_add_right _ _)),
          Nat.add_sub_cancel_left]
      rw [Finset.sum_congr rfl h0, Finset.sum_congr rfl h1,
        ← Finset.mul_sum, ← Finset.mul_sum, ih0, ih1]
      simp only [blend_eval]
      ring

/-- Claim C5 as stated is false: with clamped weight 0 and `u1 = 0` the
mask `u1 <= weight` holds, so `sample` routes to child 1 (renormalizing by
the zero weight) instead of returning child 0's result. -/
theorem blend_sample_degenerate_counterexample :
    blend_sample wZero smpA smpB 1 ⟨none⟩ miX 0 (0, 0) ≠
      smpA ⟨none⟩ miX 0 (0, 0) := by
  have hw : eval_weight wZero miX = 0 := eval_weight_wZero miX
  simp only [blend_sample, hw, smpA, smpB]
  norm_num

/-- Claim C5 amended: with clamped weight exactly 1 the single active branch
is child 1 for every `u1` in [0,1), and with clamped weight exactly 0 it is
child 0 for every `u1` in (0,1); the active branch's renormalizing divisor
is nonzero and the returned pair equals that child's own result at the
unchanged uniform (at weight 0 and `u1 = 0` the code instead routes to
child 1, dividing the uniform by the zero weight). -/
theorem blend_sample_degenerate_weights
    (weightField : MediumInteraction → ℝ) (smp0 smp1 : SampleFn) (c0 : ℕ)
    (mi : MediumInteraction) (u1 : ℝ) (sample2 : ℝ × ℝ) :
    (eval_weight weightField mi = 0 → 0 < u1 → u1 < 1 →
      (1 - eval_weight weightField mi ≠ 0 ∧
        blend_sample weightField smp0 smp1 c0 ⟨none⟩ mi u1 sample2 =
          smp0 ⟨none⟩ mi u1 sample2)) ∧
    (eval_weight weightField mi = 1 → 0 ≤ u1 → u1 < 1 →
      (eval_weight weightField mi ≠ 0 ∧
        blend_sample weightField smp0 smp1 c0 ⟨none⟩ mi u1 sample2 =
          smp1 ⟨none⟩ mi u1 sample2)) := by
  constructor
  · intro hw hu0 hu1
    refine ⟨by rw [hw]; norm_num, ?_⟩
    have hgt : u1 > eval_weight weightField mi := by rw [hw]; exact hu0
    have hr : blend_sample weightField smp0 smp1 c0 ⟨none⟩ mi u1 sample2 =
        smp0 ⟨none⟩ mi
          ((u1 - eval_weight weightField mi) /
            (1 - eval_weight weightField mi)) sample2 := by
      simp only [blend_sample, if_pos hgt]
    rw [hr, hw]
    norm_num
  · intro hw hu0 hu1
    refine ⟨by rw [hw]; norm_num, ?_⟩
    have hle : ¬ u1 > eval_weight weightField mi := by
      rw [hw]; exact not_lt.mpr (le_of_lt hu1)
    have hr : blend_sample weightField smp0 smp1 c0 ⟨none⟩ mi u1 sample2 =
        smp1 ⟨none⟩ mi (u1 / eval_weight weightField mi) sample2 := by
      simp only [blend_sample, if_neg hle]
    rw [hr, hw]
    norm_num

/-- Witness for the amended C5: both degenerate weights at `u1 = 1/2`. -/
theorem blend_sample_degenerate_weights_witness :
    (1 - eval_weight wZero miX ≠ 0 ∧
      blend_sample wZero smpA smpB 1 ⟨none⟩ miX (1 / 2) (0, 0) =
        smpA ⟨none⟩ miX (1 / 2) (0, 0)) ∧
    (eval_weight wOne miX ≠ 0 ∧
      blend_sample wOne smpA smpB 1 ⟨none⟩ miX (1 / 2) (0, 0) =
        smpB ⟨none⟩ miX (1 / 2) (0, 0)) :=
  ⟨(blend_sample_degenerate_weights wZero smpA smpB 1 miX (1 / 2) (0, 0)).1
      (eval_weight_wZero miX) (by norm_num) (by norm_num),
   (blend_sample_degenerate_weights wOne smpA smpB 1 miX (1 / 2) (0, 0)).2
      (eval_weight_wOne miX) (by norm_num) (by norm_num)⟩

/-- Claim C8: HG construction fails exactly when `g` lies outside the open
interval (-1, 1); in particular `g = 1`, `g = -1`, `g = 1.5` fail while
`g = 0.999999` succeeds. -/
theorem mkHG_boundary :
    (∀ g : ℝ, mkHG g = none ↔ ¬(-1 < g ∧ g < 1)) ∧
    mkHG 1 = none ∧ mkHG (-1) = none ∧ mkHG 1.5 = none ∧
    mkHG 0.999999 = some 0.999999 := by
  refine ⟨fun g => ?_, ?_, ?_, ?_, ?_⟩
  · constructor
    · intro hn hc
      by_cases h : g ≥ 1 ∨ g ≤ -1
      · rcases h with h | h
        · exact absurd hc.2 (not_lt.mpr h)
        · exact absurd hc.1 (not_lt.mpr h)
      · simp [mkHG, if_neg h] at hn
    · intro hc
      by_cases h : g ≥ 1 ∨ g ≤ -1
      · simp only [mkHG, if_pos h]
      · push_neg at h
        exact absurd ⟨h.2, h.1⟩ hc
  · simp [mkHG]
  · simp [mkHG]
  · simp only [mkHG]; rw [if_pos]; left; norm_num
  · simp only [mkHG]; rw [if_neg]; norm_num

/-- Claim C6: for `|g| < 1` and `cosTheta ∈ [-1,1]` the base of the HG
denominator is strictly positive and `eval_hg` equals the closed form
`(1/4π)·(1-g²)/(1+g²+2·g·cosTheta)^(3/2)`. -/
theorem eval_hg_closed_form (g cosTheta : ℝ) (hg1 : |g| < 1)
    (hc1 : -1 ≤ cosTheta) (hc2 : cosTheta ≤ 1) :
    0 < 1 + g * g + 2 * g * cosTheta ∧
    eval_hg g cosTheta =
      1 / (4 * Real.pi) * (1 - g * g) /
        (1 + g * g + 2 * g * cosTheta) ^ ((3 : ℝ) / 2) := by
  have hcabs : |cosTheta| ≤ 1 := abs_le.mpr ⟨hc1, hc2⟩
  have h1 : |g * cosTheta| ≤ |g| := by
    rw [abs_mul]
    exact mul_le_of_le_one_right (abs_nonneg g) hcabs
  have h2 : -|g| ≤ g * cosTheta := (abs_le.mp h1).1
  have h3 : 0 < 1 - |g| := by linarith
  have hpos : 0 < 1 + g * g + 2 * g * cosTheta := by
    nlinarith [mul_pos h3 h3, sq_abs g, h2]
  refine ⟨hpos, ?_⟩
  have h32 : (1 + g * g + 2 * g * cosTheta) ^ ((3 : ℝ) / 2) =
      (1 + g * g + 2 * g * cosTheta) *
        Real.sqrt (1 + g * g + 2 * g * cosTheta) := by
    have he : ((3 : ℝ) / 2) = 1 + 1 / 2 := by norm_num
    rw [he, Real.rpow_add hpos, Real.rpow_one, Real.sqrt_eq_rpow]
  simp only [eval_hg, invFourPi]
  rw [h32]

/-- Witness for C6: the closed form at `g = 0`, `cosTheta = 0`. -/
theorem eval_hg_closed_form_witness :
    0 < 1 + (0 : ℝ) * 0 + 2 * 0 * 0 ∧
    eval_hg 0 0 =
      1 / (4 * Real.pi) * (1 - (0 : ℝ) * 0) /
        (1 + (0 : ℝ) * 0 + 2 * 0 * 0) ^ ((3 : ℝ) / 2) :=
  eval_hg_closed_form 0 0 (by norm_num) (by norm_num) (by norm_num)

/-- In the frame of the incoming direction (orthonormal, third axis `wi`),
the world-space cosine against `wi` of a transformed local direction is the
local z-coordinate. -/
theorem dot3_toWorld_wi (mi : MediumInteraction) (v : Vec3)
    (hs : dot3 mi.fs mi.wi = 0) (ht : dot3 mi.ft mi.wi = 0)
    (hw : dot3 mi.wi mi.wi = 1) :
    dot3 (mi.toWorld v) mi.wi = v.2.2 := by
  simp only [dot3, MediumInteraction.toWorld] at hs ht hw ⊢
  linear_combination v.1 * hs + v.2.1 * ht + v.2.2 * hw

/-- Claim C7: the density returned by HG `sample` equals `eval` at the
returned direction — both equal `eval_hg` at the negated deflection
cosine — whenever the interaction's frame is orthonormal with third axis
`wi`. -/
theorem hg_sample_eval_consistent (g : ℝ) (ctxS ctxE : PhaseCtx)
    (mi : MediumInteraction) (u1 : ℝ) (sample2 : ℝ × ℝ)
    (hs : dot3 mi.fs mi.wi = 0) (ht : dot3 mi.ft mi.wi = 0)
    (hw : dot3 mi.wi mi.wi = 1) :
    (hg_sample g ctxS mi u1 sample2).2 =
      hg_eval g ctxE mi (hg_sample g ctxS mi u1 sample2).1 ∧
    (hg_sample g ctxS mi u1 sample2).2 =
      eval_hg g (-(hg_cos_theta g sample2.1)) := by
  refine ⟨?_, rfl⟩
  simp only [hg_sample, hg_eval]
  rw [dot3_toWorld_wi mi _ hs ht hw]

/-- Witness for C7: the consistency theorem at `g = 0` with the standard
frame. -/
theorem hg_sample_eval_consistent_witness :
    (hg_sample 0 ⟨none⟩ miX (1 / 2) (1 / 4, 1 / 4)).2 =
      hg_eval 0 ⟨some 0⟩ miX (hg_sample 0 ⟨none⟩ miX (1 / 2) (1 / 4, 1 / 4)).1 ∧
    (hg_sample 0 ⟨none⟩ miX (1 / 2) (1 / 4, 1 / 4)).2 =
      eval_hg 0 (-(hg_cos_theta 0 (1 / 4))) :=
  hg_sample_eval_consistent 0 ⟨none⟩ ⟨some 0⟩ miX (1 / 2) (1 / 4, 1 / 4)
    (by simp [dot3, miX]) (by simp [dot3, miX]) (by simp [dot3, miX])

/-- Claim C10: HG `sample` ignores its 1-D sample argument entirely — any
two values of it yield identical (direction, density) — and therefore the
renormalized 1-D uniform the mixture forwards to an HG child never changes
the mixture's result beyond the branch selection itself. -/
theorem hg_sample_ignores_sample1 :
    (∀ (g : ℝ) (ctx : PhaseCtx) (mi : MediumInteraction) (u1 u1a : ℝ)
        (sample2 : ℝ × ℝ),
      hg_sample g ctx mi u1 sample2 = hg_sample g ctx mi u1a sample2) ∧
    (∀ (wf : MediumInteraction → ℝ) (g0 g1 : ℝ) (c0 : ℕ) (ctx : PhaseCtx)
        (mi : MediumInteraction) (u1 u1a : ℝ) (sample2 : ℝ × ℝ),
      ((u1 > eval_weight wf mi) ↔ (u1a > eval_weight wf mi)) →
      blend_sample wf (hg_sample g0) (hg_sample g1) c0 ctx mi u1 sample2 =
        blend_sample wf (hg_sample g0) (hg_sample g1) c0 ctx mi u1a
          sample2) := by
  have hbase : ∀ (g : ℝ) (ctx : PhaseCtx) (mi : MediumInteraction)
      (u1 u1a : ℝ) (sample2 : ℝ × ℝ),
      hg_sample g ctx mi u1 sample2 = hg_sample g ctx mi u1a sample2 :=
    fun _ _ _ _ _ _ => rfl
  refine ⟨hbase, ?_⟩
  intro wf g0 g1 c0 ctx mi u1 u1a sample2 hroute
  cases hc : ctx.component with
  | some k =>
      simp only [blend_sample, hc]
      by_cases hk : k < c0
      · rw [if_pos hk, if_pos hk, hbase g0 ctx mi u1 u1a sample2]
      · rw [if_neg hk, if_neg hk, hbase g1 ⟨some (k - c0)⟩ mi u1 u1a sample2]
  | none =>
      simp only [blend_sample, hc]
      by_cases hgt : u1 > eval_weight wf mi
      · rw [if_pos hgt, if_pos (hroute.mp hgt)]
        exact hbase g0 ctx mi _ _ sample2
      · rw [if_neg hgt, if_neg (fun h => hgt (hroute.mpr h))]
        exact hbase g1 ctx mi _ _ sample2

/-- Witness for C10: identical HG results under two different 1-D samples,
directly and through the mixture (both uniforms routing to child 0). -/
theorem hg_sample_ignores_sample1_witness :
    hg_sample 0 ⟨none⟩ miX (1 / 4) (0, 0) =
      hg_sample 0 ⟨none⟩ miX (3 / 4) (0, 0) ∧
    blend_sample wHalf (hg_sample 0) (hg_sample 0) 1 ⟨none⟩ miX (3 / 4)
        (0, 0) =
      blend_sample wHalf (hg_sample 0) (hg_sample 0) 1 ⟨none⟩ miX (7 / 8)
        (0, 0) :=
  ⟨hg_sample_ignores_sample1.1 0 ⟨none⟩ miX (1 / 4) (3 / 4) (0, 0),
   hg_sample_ignores_sample1.2 wHalf 0 0 1 ⟨none⟩ miX (3 / 4) (7 / 8) (0, 0)
     (by rw [eval_weight_wHalf]; norm_num)⟩

/-- Claim C9: mixture construction fails exactly when the supplied child
count differs from two or the weight source is absent; the failed
construction yields no usable object. -/
theorem mkBlend_validation {α W : Type} (phases : List α) (weight : Option W) :
    mkBlend phases weight = none ↔ phases.length ≠ 2 ∨ weight = none := by
  match phases, weight with
  | [], w => simp [mkBlend]
  | [a], w => simp [mkBlend]
  | [a, b], none => simp [mkBlend]
  | [a, b], some w => simp [mkBlend]
  | a :: b :: c :: rest, w => simp [mkBlend]
